import Mathlib

/-!  Verification of the incremental backup utility
     (src/file_management/backup_to_usb.py).

The Python program is shallow-embedded: a path is the sequence of its
parts (pathlib `Path.parts`), the filesystem is a partial map from paths
to entries carrying size and modification time, and the effectful parts
of `backup` and `main` are modeled as state passing over the filesystem
together with an explicit trace of effects (log writes, directory
creation, copies, notifications, prints).  The output of `os.walk` on a
source directory is taken as input data: a list of (root, files-in-root)
pairs in traversal order.  -/

namespace BackupToUsb

/-- A filesystem path, as the sequence of its parts (pathlib
`Path.parts`); an absolute path starts with the part "/". -/
abbrev FsPath := List String

/-- The `stat` result fields the program uses: `st_size` and `st_mtime`
(modification time as a tick count). -/
structure Stat where
  size : Nat
  mtime : Nat
deriving DecidableEq

/-- A filesystem entry: a directory or a regular file, with stat data. -/
inductive Entry where
  | dir (st : Stat)
  | file (st : Stat)
deriving DecidableEq

def Entry.stat : Entry → Stat
  | .dir st => st
  | .file st => st

/-- `os.path.isdir` on a looked-up entry. -/
def isDirEntry : Option Entry → Bool
  | some (.dir _) => true
  | _ => false

/-- The filesystem: a partial map from absolute paths to entries. -/
abbrev Fs := FsPath → Option Entry

def Fs.set (fs : Fs) (p : FsPath) (e : Entry) : Fs :=
  fun q => if q = p then some e else fs q

/-- `Path.mkdir(parents=True, exist_ok=True)`: create a directory entry
at `p` and at every missing ancestor; existing entries are untouched. -/
def Fs.mkdirp (fs : Fs) (p : FsPath) : Fs :=
  fun q => if q.isPrefixOf p && (fs q).isNone then some (.dir ⟨0, 0⟩) else fs q

/-- `p.stat()` as the program reads it; `none` when `stat` raises. -/
def statOf (fs : Fs) (p : FsPath) : Option Stat :=
  (fs p).map Entry.stat

/-- `part.startswith('.')`: the part's first character is a dot. -/
def startsWith_dot (s : String) : Bool :=
  match s.data with
  | [] => false
  | c :: _ => c == '.'

/-- Lines 43-45: `is_hidden` - some part of the (absolute) path is
dot-prefixed. -/
def is_hidden (path : FsPath) : Bool :=
  path.any (fun part => startsWith_dot part)

/-- Lines 47-57: `iter_files`, as a function of the `os.walk` output
(`walk` lists the (root, files-in-root) pairs in traversal order): for
each visited directory, skip it when hidden, and yield its non-hidden
files. -/
def iter_files (walk : List (FsPath × List String)) : List FsPath :=
  walk.flatMap (fun rf =>
    if is_hidden rf.1 then []
    else rf.2.filterMap (fun name =>
      let p := rf.1 ++ [name]
      if is_hidden p then none else some p))

inductive SyncDecision where
  | copy
  | skip
deriving DecidableEq

/-- Lines 100-106: the per-file sync decision.  `destExists` is
`dest_path.exists()`; a stat is `none` when it raises, in which case
the `except Exception: pass` falls through to copying. -/
def sync_decision (destExists : Bool) (srcStat destStat : Option Stat) :
    SyncDecision :=
  if destExists then
    match srcStat, destStat with
    | some s, some d => if s.size = d.size ∧ d.mtime ≥ s.mtime then .skip else .copy
    | _, _ => .copy
  else .copy

/-- One `--sources` entry: its resolved path, and the `os.walk` output
for it (empty when the path is not a directory, since `os.walk` on a
non-directory yields nothing). -/
structure Source where
  path : FsPath
  walk : List (FsPath × List String)
deriving DecidableEq

structure Config where
  sources : List Source
  destination : FsPath
  dryRun : Bool
  logfile : FsPath
  /-- whether a notifier binary was supplied and exists (`notify` is a
  no-op otherwise). -/
  notifier : Bool
  /-- which source files fail with an I/O error when copied. -/
  ioFail : FsPath → Bool

inductive Effect where
  /-- `notify`: run the notifier subprocess with (title, message). -/
  | notifyCall (title message : String)
  /-- `log_line`: create the log file's parent directories on demand and
  append one timestamped line; collapsed into one effect on the log
  sink, which is kept outside the modeled filesystem map. -/
  | logWrite (logfile : FsPath) (message : String)
  /-- destination-side `mkdir(parents=True, exist_ok=True)`. -/
  | mkdirp (p : FsPath)
  /-- `shutil.copy2`. -/
  | copy2 (src dest : FsPath)
  | printLine (message : String)
deriving DecidableEq

/-- Does the effect create or modify a filesystem entry? -/
def Effect.isMutation : Effect → Bool
  | .logWrite _ _ => true
  | .mkdirp _ => true
  | .copy2 _ _ => true
  | _ => false

/-- Line 99 (and lines 60-61): `destination / f.relative_to(base)`,
for `f` lying under `base`. -/
def dest_path_of (destination f base : FsPath) : FsPath :=
  destination ++ f.drop base.length

/-- Modelled from the spec (the namespaced layout policy of section 4.2,
absent from the code under src/), for comparison with the code's
layout: destination root, then the exact final path-segment name of the
owning source root, then the relative path. -/
def dest_path_namespaced (destination f base : FsPath) : FsPath :=
  destination ++ [base.getLastD ""] ++ f.drop base.length

/-- Lines 88-91: the flattened candidate list, in source order. -/
def candidates (cfg : Config) : List (FsPath × FsPath) :=
  cfg.sources.flatMap (fun s => (iter_files s.walk).map (fun f => (f, s.path)))

structure LoopState where
  fs : Fs
  copied : Nat
  trace : List Effect

/-- The decision the loop body makes for candidate `c = (f, base)`. -/
def runDecision (fs : Fs) (destination : FsPath) (c : FsPath × FsPath) :
    SyncDecision :=
  let dp := dest_path_of destination c.1 c.2
  sync_decision (fs dp).isSome (statOf fs c.1) (statOf fs dp)

/-- Where `shutil.copy2 src dst` actually writes: if `dst` is an
existing directory, the file is copied into it under the source's base
name (`dst/basename(src)`, `dst` itself stays a directory); otherwise
the file lands at `dst`, overwriting an existing regular file. -/
def copyTarget (fs : Fs) (src dst : FsPath) : FsPath :=
  if isDirEntry (fs dst) then dst ++ [src.getLastD ""] else dst

/-- Lines 98-108, one loop iteration: decide; on copy, `copy_with_dirs`
(immediate return when dry-run, else mkdir the parents, then
`shutil.copy2`, which writes a regular file carrying the source's size
and mtime at the resolved target - see `copyTarget`).  `copy2` raises
an I/O error - aborting the loop before `copied` is incremented - when
the source is missing or not a regular file, or when `Config.ioFail`
flags it; `ioFail` is the oracle for every `OSError` the copy would
raise (unreadable source, unwritable destination, disk full, a
directory sitting at the resolved target), so a faithful instantiation
sets it exactly on the candidates whose copy the environment makes
fail.  The parent mkdir only creates ancestors of the destination path,
so the pre-step state decides the `copyTarget` resolution. -/
def step (cfg : Config) (st : LoopState) (c : FsPath × FsPath) :
    Except LoopState LoopState :=
  let dp := dest_path_of cfg.destination c.1 c.2
  match runDecision st.fs cfg.destination c with
  | .skip => .ok st
  | .copy =>
    if cfg.dryRun then
      .ok { st with copied := st.copied + 1 }
    else
      let parent := dp.dropLast
      let fs1 := st.fs.mkdirp parent
      match st.fs c.1, cfg.ioFail c.1 with
      | some (.file stt), false =>
        .ok { fs := fs1.set (copyTarget st.fs c.1 dp) (.file stt),
              copied := st.copied + 1,
              trace := st.trace ++ [.mkdirp parent, .copy2 c.1 dp] }
      | _, _ =>
        .error { st with fs := fs1, trace := st.trace ++ [.mkdirp parent] }

/-- The candidate loop; `some src` reports an uncaught I/O error while
copying `src`, aborting the loop. -/
def runLoop (cfg : Config) : List (FsPath × FsPath) → LoopState →
    LoopState × Option FsPath
  | [], st => (st, none)
  | c :: rest, st =>
    match step cfg st c with
    | .error st2 => (st2, some c.1)
    | .ok st2 => runLoop cfg rest st2

/-- The destination path of candidate `c` under configuration `cfg`. -/
def dpath (cfg : Config) (c : FsPath × FsPath) : FsPath :=
  dest_path_of cfg.destination c.1 c.2

/-- The loop state after a successful real (non-dry-run) copy of `c`:
the file lands at the `copyTarget` resolution of the destination
path. -/
def copiedState (cfg : Config) (st : LoopState) (c : FsPath × FsPath)
    (stt : Stat) : LoopState :=
  { fs := (st.fs.mkdirp (dpath cfg c).dropLast).set
      (copyTarget st.fs c.1 (dpath cfg c)) (.file stt),
    copied := st.copied + 1,
    trace := st.trace ++ [.mkdirp (dpath cfg c).dropLast, .copy2 c.1 (dpath cfg c)] }

/-- The loop state after a real copy of `c` fails with an I/O error
(the parent directories were already created). -/
def errorState (cfg : Config) (st : LoopState) (c : FsPath × FsPath) : LoopState :=
  { st with fs := st.fs.mkdirp (dpath cfg c).dropLast,
            trace := st.trace ++ [.mkdirp (dpath cfg c).dropLast] }

inductive Outcome where
  /-- normal completion with the reported evaluated/copied counts. -/
  | completed (evaluated copied : Nat) (dryRun : Bool)
  /-- `raise SystemExit(message)`. -/
  | sysExit (message : String)
  /-- an uncaught I/O error while copying `src`. -/
  | ioError (src : FsPath)
deriving DecidableEq

structure RunResult where
  trace : List Effect
  fs : Fs
  outcome : Outcome

/-- Render a path the way `str(Path(...))` does for absolute paths. -/
def pathString : FsPath → String
  | "/" :: rest => "/" ++ String.intercalate "/" rest
  | p => String.intercalate "/" p

/-- Lines 73-75: the run-start notification and log line. -/
def startTrace (cfg : Config) : List Effect :=
  (if cfg.notifier then [Effect.notifyCall "Backup" "Backup starting…"] else [])
    ++ [Effect.logWrite cfg.logfile "Backup started"]

/-- Lines 115-120: the summary line. -/
def summaryLine (cfg : Config) (evaluated copied : Nat) : String :=
  (if cfg.dryRun then "Dry run completed. Files evaluated: "
   else "Backup completed. Files evaluated: ")
    ++ toString evaluated
    ++ (if cfg.dryRun then "; would copy: " else "; copied: ")
    ++ toString copied

/-- Lines 113-120: the run-end notification, log line and print. -/
def endTrace (cfg : Config) (evaluated copied : Nat) : List Effect :=
  (if cfg.notifier then
     [Effect.notifyCall "Backup"
       (if cfg.dryRun then "Dry run complete" else "Backup complete")]
   else [])
    ++ [Effect.logWrite cfg.logfile (summaryLine cfg evaluated copied),
        Effect.printLine (summaryLine cfg evaluated copied)]

/-- Lines 80-81: one log line per missing source. -/
def missingTrace (cfg : Config) (missing : List Source) : List Effect :=
  missing.map (fun s =>
    Effect.logWrite cfg.logfile ("Source not found: " ++ pathString s.path))

/-- Lines 72-120: `backup`. -/
def backup (cfg : Config) (fs0 : Fs) : RunResult :=
  match cfg.sources.filter (fun s => (fs0 s.path).isNone) with
  | m :: ms =>
    { trace := startTrace cfg ++ missingTrace cfg (m :: ms),
      fs := fs0,
      outcome := .sysExit
        ("One or more sources do not exist. First missing: " ++ pathString m.path) }
  | [] =>
    let fs1 := if cfg.dryRun then fs0 else fs0.mkdirp cfg.destination
    let destTrace : List Effect :=
      if cfg.dryRun then [] else [Effect.mkdirp cfg.destination]
    match runLoop cfg (candidates cfg) ⟨fs1, 0, []⟩ with
    | (st, some src) =>
      { trace := startTrace cfg ++ destTrace ++ st.trace, fs := st.fs,
        outcome := .ioError src }
    | (st, none) =>
      { trace := startTrace cfg ++ destTrace ++ st.trace
          ++ endTrace cfg (candidates cfg).length st.copied,
        fs := st.fs,
        outcome := .completed (candidates cfg).length st.copied cfg.dryRun }

inductive ExitStatus where
  | success
  /-- `SystemExit(message)`: the message is printed and the process
  exits with code 1. -/
  | exitMessage (message : String)
  /-- `SystemExit(code)`. -/
  | exitCode (code : Nat)
deriving DecidableEq

def ExitStatus.code : ExitStatus → Nat
  | .success => 0
  | .exitMessage _ => 1
  | .exitCode c => c

/-- Lines 126-155: `main`'s argument checks and exception handling.
`interrupted` says whether a KeyboardInterrupt arrived during `backup`;
`partialTrace` is whatever the interrupted run emitted before that.
An uncaught I/O error from `backup` terminates the process with
exit code 1 (a Python traceback). -/
def main (sourcesArg destArg : String) (logfile : FsPath) (notifier : Bool)
    (cfg : Config) (fs0 : Fs) (interrupted : Bool) (partialTrace : List Effect) :
    List Effect × ExitStatus :=
  if sourcesArg = "" then
    ([], .exitMessage "No sources provided. Use --sources or BACKUP_SOURCES env.")
  else if destArg = "" then
    ([], .exitMessage "No destination provided. Use --dest or BACKUP_DESTINATION env.")
  else if interrupted then
    (partialTrace
       ++ [Effect.logWrite logfile "Backup interrupted by user"]
       ++ (if notifier then [Effect.notifyCall "Backup" "Backup interrupted"] else [])
       ++ [Effect.printLine "Backup interrupted by user."],
     .exitCode 130)
  else
    let r := backup cfg fs0
    (r.trace,
     match r.outcome with
     | .completed _ _ _ => .success
     | .sysExit message => .exitMessage message
     | .ioError _ => .exitCode 1)

/-- The copied count a completed run reports (line 115/119). -/
def RunResult.copiedCount (r : RunResult) : Nat :=
  match r.outcome with
  | .completed _ c _ => c
  | _ => 0

/-- Build a concrete filesystem from an association list. -/
def Fs.ofList (l : List (FsPath × Entry)) : Fs :=
  fun q => (l.find? (fun pe => pe.1 == q)).map (fun pe => pe.2)

/-! Concrete inputs used by counterexamples and witnesses. -/

/-- The spec's section 8 scenario: sources `/data/photos` and
`/data/docs`, destination `/backup`. -/
def photosPath : FsPath := ["/", "data", "photos"]

def docsPath : FsPath := ["/", "data", "docs"]

def scenarioFs : Fs := Fs.ofList
  [ (["/"], .dir ⟨0, 0⟩),
    (["/", "data"], .dir ⟨0, 0⟩),
    (photosPath, .dir ⟨0, 0⟩),
    (docsPath, .dir ⟨0, 0⟩),
    (photosPath ++ ["img1.jpg"], .file ⟨2048, 100⟩),
    (docsPath ++ ["readme.txt"], .file ⟨1024, 100⟩) ]

def scenarioCfg : Config :=
  { sources := [⟨photosPath, [(photosPath, ["img1.jpg"])]⟩,
                ⟨docsPath, [(docsPath, ["readme.txt"])]⟩],
    destination := ["/", "backup"],
    dryRun := false,
    logfile := ["/", "var", "backup.log"],
    notifier := false,
    ioFail := fun _ => false }

def dryScenarioCfg : Config := { scenarioCfg with dryRun := true }

/-- Two sources holding the same relative path `a.txt` with identical
size and mtime: a cross-source collision under the flat layout. -/
def collideCfg : Config :=
  { sources := [⟨["/", "s1"], [(["/", "s1"], ["a.txt"])]⟩,
                ⟨["/", "s2"], [(["/", "s2"], ["a.txt"])]⟩],
    destination := ["/", "backup"],
    dryRun := false,
    logfile := ["/", "var", "backup.log"],
    notifier := false,
    ioFail := fun _ => false }

def collideFs : Fs := Fs.ofList
  [ (["/"], .dir ⟨0, 0⟩),
    (["/", "s1"], .dir ⟨0, 0⟩),
    (["/", "s2"], .dir ⟨0, 0⟩),
    (["/", "s1", "a.txt"], .file ⟨5, 10⟩),
    (["/", "s2", "a.txt"], .file ⟨5, 10⟩) ]

/-- Same collision with different sizes, so the two sources keep
overwriting each other's destination file. -/
def collideFs2 : Fs := Fs.ofList
  [ (["/"], .dir ⟨0, 0⟩),
    (["/", "s1"], .dir ⟨0, 0⟩),
    (["/", "s2"], .dir ⟨0, 0⟩),
    (["/", "s1", "a.txt"], .file ⟨5, 10⟩),
    (["/", "s2", "a.txt"], .file ⟨7, 20⟩) ]

/-- A source that exists as a regular file, not a directory
(`os.walk` on it yields nothing). -/
def fileSrcCfg : Config :=
  { sources := [⟨["/", "data", "notes.txt"], []⟩],
    destination := ["/", "backup"],
    dryRun := false,
    logfile := ["/", "var", "backup.log"],
    notifier := false,
    ioFail := fun _ => false }

def fileSrcFs : Fs := Fs.ofList
  [ (["/"], .dir ⟨0, 0⟩),
    (["/", "data"], .dir ⟨0, 0⟩),
    (["/", "data", "notes.txt"], .file ⟨5, 5⟩) ]

/-- A configuration whose single source does not exist at all. -/
def missingCfg : Config :=
  { sources := [⟨["/", "gone"], []⟩],
    destination := ["/", "backup"],
    dryRun := false,
    logfile := ["/", "var", "backup.log"],
    notifier := false,
    ioFail := fun _ => false }

/-- A run in which copying the single candidate fails with an I/O
error. -/
def ioFailCfg : Config :=
  { sources := [⟨["/", "s"], [(["/", "s"], ["a.txt", "b.txt"])]⟩],
    destination := ["/", "backup"],
    dryRun := false,
    logfile := ["/", "var", "backup.log"],
    notifier := false,
    ioFail := fun p => p == ["/", "s", "a.txt"] }

def ioFailFs : Fs := Fs.ofList
  [ (["/"], .dir ⟨0, 0⟩),
    (["/", "s"], .dir ⟨0, 0⟩),
    (["/", "s", "a.txt"], .file ⟨3, 1⟩),
    (["/", "s", "b.txt"], .file ⟨4, 1⟩) ]

/-- A source root sitting under a dot-prefixed directory. -/
def hiddenRootSource : Source :=
  ⟨["/", "home", "user", ".local", "share"],
   [(["/", "home", "user", ".local", "share"], ["data.txt"]),
    (["/", "home", "user", ".local", "share", "sub"], ["more.txt"])]⟩

def hiddenRootCfg : Config :=
  { sources := [hiddenRootSource],
    destination := ["/", "backup"],
    dryRun := false,
    logfile := ["/", "var", "backup.log"],
    notifier := false,
    ioFail := fun _ => false }

def hiddenRootFs : Fs := Fs.ofList
  [ (["/"], .dir ⟨0, 0⟩),
    (["/", "home"], .dir ⟨0, 0⟩),
    (["/", "home", "user"], .dir ⟨0, 0⟩),
    (["/", "home", "user", ".local"], .dir ⟨0, 0⟩),
    (["/", "home", "user", ".local", "share"], .dir ⟨0, 0⟩),
    (["/", "home", "user", ".local", "share", "data.txt"], .file ⟨9, 9⟩),
    (["/", "home", "user", ".local", "share", "sub"], .dir ⟨0, 0⟩),
    (["/", "home", "user", ".local", "share", "sub", "more.txt"], .file ⟨8, 8⟩) ]

/-! ### Pointwise lemmas about the filesystem operations -/

theorem Fs.set_self (fs : Fs) (p : FsPath) (e : Entry) : fs.set p e p = some e := by
  simp [Fs.set]

theorem Fs.set_ne (fs : Fs) (p : FsPath) (e : Entry) (q : FsPath) (h : q ≠ p) :
    fs.set p e q = fs q := by
  simp [Fs.set, h]

theorem Fs.set_isSome (fs : Fs) (p : FsPath) (e : Entry) (q : FsPath)
    (h : (fs q).isSome) : ((fs.set p e) q).isSome := by
  unfold Fs.set
  split
  · rfl
  · exact h

theorem Fs.mkdirp_of_isSome (fs : Fs) (p q : FsPath) (h : (fs q).isSome) :
    fs.mkdirp p q = fs q := by
  unfold Fs.mkdirp
  cases hq : fs q with
  | none => rw [hq] at h; simp at h
  | some e => simp [hq]

theorem Fs.mkdirp_not_pre (fs : Fs) (p q : FsPath) (h : ¬ q <+: p) :
    fs.mkdirp p q = fs q := by
  unfold Fs.mkdirp
  have hb : q.isPrefixOf p = false := by
    rw [Bool.eq_false_iff]
    intro hc
    exact h (List.isPrefixOf_iff_prefix.mp hc)
  simp [hb]

theorem Fs.mkdirp_isSome (fs : Fs) (p q : FsPath) (h : (fs q).isSome) :
    ((fs.mkdirp p) q).isSome := by
  rw [Fs.mkdirp_of_isSome fs p q h]
  exact h

theorem copyTarget_cases (fs : Fs) (src dst : FsPath) :
    copyTarget fs src dst = dst ∨
    copyTarget fs src dst = dst ++ [src.getLastD ""] := by
  unfold copyTarget
  split
  · exact Or.inr rfl
  · exact Or.inl rfl

theorem copyTarget_pre (fs : Fs) (src dst : FsPath) :
    dst <+: copyTarget fs src dst := by
  rcases copyTarget_cases fs src dst with h | h
  · rw [h]
  · rw [h]
    exact List.prefix_append _ _

theorem copyTarget_congr (fs1 fs2 : Fs) (src dst : FsPath)
    (h : fs1 dst = fs2 dst) :
    copyTarget fs1 src dst = copyTarget fs2 src dst := by
  unfold copyTarget
  rw [h]

theorem copyTarget_of_not_dir (fs : Fs) (src dst : FsPath)
    (h : isDirEntry (fs dst) = false) : copyTarget fs src dst = dst := by
  simp [copyTarget, h]

theorem ne_copyTarget (fs : Fs) (src dst q : FsPath) (h : ¬ dst <+: q) :
    q ≠ copyTarget fs src dst := by
  intro he
  exact h (by rw [he]; exact copyTarget_pre fs src dst)

theorem not_pre_copyTarget (fs : Fs) (src dst q : FsPath)
    (h1 : ¬ q <+: dst) (h2 : ¬ dst <+: q) :
    ¬ q <+: copyTarget fs src dst := by
  rcases copyTarget_cases fs src dst with h | h
  · rw [h]
    exact h1
  · rw [h]
    intro hp
    rcases List.prefix_concat_iff.mp hp with heq | hpre
    · exact h2 (by rw [heq]; exact List.prefix_append _ _)
    · exact h1 hpre

/-! ### Hidden-path and traversal lemmas -/

theorem is_hidden_mono (q r : FsPath) (hpre : q <+: r) (hq : is_hidden q = true) :
    is_hidden r = true := by
  simp only [is_hidden, List.any_eq_true] at hq ⊢
  obtain ⟨part, hmem, hsw⟩ := hq
  exact ⟨part, hpre.sublist.subset hmem, hsw⟩

theorem not_hidden_of_mem_iter_files (walk : List (FsPath × List String))
    (p : FsPath) (h : p ∈ iter_files walk) : is_hidden p = false := by
  unfold iter_files at h
  rw [List.mem_flatMap] at h
  obtain ⟨rf, hrf, hp⟩ := h
  split at hp
  · simp at hp
  · rw [List.mem_filterMap] at hp
    obtain ⟨name, hn, hname⟩ := hp
    dsimp only at hname
    split at hname
    · simp at hname
    · rename_i hh
      rw [Option.some.injEq] at hname
      rw [← hname]
      exact Bool.eq_false_iff.mpr hh

theorem iter_files_eq_nil (s : Source) (hcoh : ∀ rf ∈ s.walk, s.path <+: rf.1)
    (hhid : is_hidden s.path = true) : iter_files s.walk = [] := by
  unfold iter_files
  rw [List.flatMap_eq_nil_iff]
  intro rf hmem
  simp [is_hidden_mono s.path rf.1 (hcoh rf hmem) hhid]

theorem mem_candidates (cfg : Config) (c : FsPath × FsPath)
    (h : c ∈ candidates cfg) :
    ∃ s ∈ cfg.sources, c.1 ∈ iter_files s.walk ∧ c.2 = s.path := by
  simp only [candidates, List.mem_flatMap, List.mem_map] at h
  obtain ⟨s, hs, f, hf, hc⟩ := h
  exact ⟨s, hs, by rw [← hc]; exact hf, by rw [← hc]⟩

/-! ### Characterizing one loop iteration -/

theorem runLoop_nil (cfg : Config) (st : LoopState) :
    runLoop cfg [] st = (st, none) := rfl

theorem runLoop_cons (cfg : Config) (c : FsPath × FsPath)
    (rest : List (FsPath × FsPath)) (st : LoopState) :
    runLoop cfg (c :: rest) st =
      match step cfg st c with
      | .error st2 => (st2, some c.1)
      | .ok st2 => runLoop cfg rest st2 := rfl

theorem step_skip (cfg : Config) (st : LoopState) (c : FsPath × FsPath)
    (h : runDecision st.fs cfg.destination c = .skip) :
    step cfg st c = .ok st := by
  simp [step, h]

theorem step_copy_dry (cfg : Config) (st : LoopState) (c : FsPath × FsPath)
    (hdec : runDecision st.fs cfg.destination c = .copy)
    (hdry : cfg.dryRun = true) :
    step cfg st c = .ok { st with copied := st.copied + 1 } := by
  simp [step, hdec, hdry]

theorem step_copy_real (cfg : Config) (st : LoopState) (c : FsPath × FsPath)
    (stt : Stat)
    (hdec : runDecision st.fs cfg.destination c = .copy)
    (hdry : cfg.dryRun = false)
    (hsrc : st.fs c.1 = some (.file stt))
    (hio : cfg.ioFail c.1 = false) :
    step cfg st c = .ok (copiedState cfg st c stt) := by
  simp [step, hdec, hdry, hsrc, hio, copiedState, dpath]

theorem step_copy_error (cfg : Config) (st : LoopState) (c : FsPath × FsPath)
    (hdec : runDecision st.fs cfg.destination c = .copy)
    (hdry : cfg.dryRun = false)
    (herr : (∀ stt, st.fs c.1 ≠ some (.file stt)) ∨ cfg.ioFail c.1 = true) :
    step cfg st c = .error (errorState cfg st c) := by
  rcases herr with herr | herr
  · cases hs : st.fs c.1 with
    | none => simp [step, hdec, hdry, hs, errorState, dpath]
    | some e =>
      cases e with
      | dir stt => simp [step, hdec, hdry, hs, errorState, dpath]
      | file stt => exact absurd hs (herr stt)
  · cases hs : st.fs c.1 with
    | none => simp [step, hdec, hdry, hs, errorState, dpath]
    | some e =>
      cases e with
      | dir stt => simp [step, hdec, hdry, hs, errorState, dpath]
      | file stt => simp [step, hdec, hdry, hs, herr, errorState, dpath]

theorem step_exhaust (cfg : Config) (st : LoopState) (c : FsPath × FsPath) :
    step cfg st c = .ok st ∨
    step cfg st c = .ok { st with copied := st.copied + 1 } ∨
    (∃ stt, step cfg st c = .ok (copiedState cfg st c stt)) ∨
    step cfg st c = .error (errorState cfg st c) := by
  cases hdec : runDecision st.fs cfg.destination c with
  | skip => exact Or.inl (step_skip cfg st c hdec)
  | copy =>
    cases hdry : cfg.dryRun with
    | true => exact Or.inr (Or.inl (step_copy_dry cfg st c hdec hdry))
    | false =>
      cases hs : st.fs c.1 with
      | none =>
        exact Or.inr (Or.inr (Or.inr
          (step_copy_error cfg st c hdec hdry (Or.inl (fun stt h => by
            rw [hs] at h; cases h)))))
      | some e =>
        cases e with
        | dir stt =>
          exact Or.inr (Or.inr (Or.inr
            (step_copy_error cfg st c hdec hdry (Or.inl (fun stt2 h => by
              rw [hs] at h; cases h)))))
        | file stt =>
          cases hio : cfg.ioFail c.1 with
          | true =>
            exact Or.inr (Or.inr (Or.inr
              (step_copy_error cfg st c hdec hdry (Or.inr hio))))
          | false =>
            exact Or.inr (Or.inr (Or.inl
              ⟨stt, step_copy_real cfg st c stt hdec hdry hs hio⟩))

/-! ### Global properties of the candidate loop -/

theorem runLoop_trace_elem (cfg : Config) (L : List (FsPath × FsPath))
    (st : LoopState) (e : Effect) (h : e ∈ (runLoop cfg L st).1.trace) :
    e ∈ st.trace ∨ (∃ p, e = .mkdirp p) ∨ (∃ a b, e = .copy2 a b) := by
  induction L generalizing st with
  | nil => rw [runLoop_nil] at h; exact Or.inl h
  | cons c rest ih =>
    rw [runLoop_cons] at h
    rcases step_exhaust cfg st c with hs | hs | ⟨stt, hs⟩ | hs
    · rw [hs] at h
      exact ih st h
    · rw [hs] at h
      exact ih { st with copied := st.copied + 1 } h
    · rw [hs] at h
      rcases ih (copiedState cfg st c stt) h with hin | hr | hr
      · rcases List.mem_append.mp hin with hin | hin
        · exact Or.inl hin
        · rcases List.mem_cons.mp hin with rfl | hin
          · exact Or.inr (Or.inl ⟨_, rfl⟩)
          · rcases List.mem_singleton.mp hin with rfl
            exact Or.inr (Or.inr ⟨_, _, rfl⟩)
      · exact Or.inr (Or.inl hr)
      · exact Or.inr (Or.inr hr)
    · rw [hs] at h
      dsimp [errorState] at h
      rcases List.mem_append.mp h with hin | hin
      · exact Or.inl hin
      · rcases List.mem_singleton.mp hin with rfl
        exact Or.inr (Or.inl ⟨_, rfl⟩)

theorem runLoop_copy2_src (cfg : Config) (L : List (FsPath × FsPath))
    (st : LoopState) (s d : FsPath)
    (h : Effect.copy2 s d ∈ (runLoop cfg L st).1.trace) :
    Effect.copy2 s d ∈ st.trace ∨
      ∃ b, (s, b) ∈ L ∧ d = dest_path_of cfg.destination s b := by
  induction L generalizing st with
  | nil => rw [runLoop_nil] at h; exact Or.inl h
  | cons c rest ih =>
    rw [runLoop_cons] at h
    rcases step_exhaust cfg st c with hs | hs | ⟨stt, hs⟩ | hs
    · rw [hs] at h
      rcases ih st h with hin | ⟨b, hb, hd⟩
      · exact Or.inl hin
      · exact Or.inr ⟨b, List.mem_cons_of_mem c hb, hd⟩
    · rw [hs] at h
      rcases ih _ h with hin | ⟨b, hb, hd⟩
      · exact Or.inl hin
      · exact Or.inr ⟨b, List.mem_cons_of_mem c hb, hd⟩
    · rw [hs] at h
      rcases ih _ h with hin | ⟨b, hb, hd⟩
      · rcases List.mem_append.mp hin with hin | hin
        · exact Or.inl hin
        · rcases List.mem_cons.mp hin with heq | hin
          · cases heq
          · rcases List.mem_singleton.mp hin with heq
            injection heq with h1 h2
            subst h1
            subst h2
            exact Or.inr ⟨c.2, by simp [dpath, dest_path_of], rfl⟩
      · exact Or.inr ⟨b, List.mem_cons_of_mem c hb, hd⟩
    · rw [hs] at h
      dsimp [errorState] at h
      rcases List.mem_append.mp h with hin | hin
      · exact Or.inl hin
      · rcases List.mem_singleton.mp hin with heq
        cases heq

theorem runLoop_isSome (cfg : Config) (L : List (FsPath × FsPath))
    (st : LoopState) (q : FsPath) (h : (st.fs q).isSome) :
    (((runLoop cfg L st).1).fs q).isSome := by
  induction L generalizing st with
  | nil => rw [runLoop_nil]; exact h
  | cons c rest ih =>
    rw [runLoop_cons]
    rcases step_exhaust cfg st c with hs | hs | ⟨stt, hs⟩ | hs
    · rw [hs]; exact ih st h
    · rw [hs]; exact ih _ h
    · rw [hs]
      exact ih _ (Fs.set_isSome _ _ _ _ (Fs.mkdirp_isSome _ _ _ h))
    · rw [hs]
      exact Fs.mkdirp_isSome _ _ _ h

theorem runLoop_files_remain (cfg : Config) (L : List (FsPath × FsPath))
    (st : LoopState)
    (hinv : ∀ s d, Effect.copy2 s d ∈ st.trace →
      ∃ p stt, (p = d ∨ p = d ++ [s.getLastD ""]) ∧ st.fs p = some (.file stt)) :
    ∀ s d, Effect.copy2 s d ∈ (runLoop cfg L st).1.trace →
      ∃ p stt, (p = d ∨ p = d ++ [s.getLastD ""]) ∧
        (runLoop cfg L st).1.fs p = some (.file stt) := by
  induction L generalizing st with
  | nil =>
    intro s d h
    rw [runLoop_nil] at h ⊢
    exact hinv s d h
  | cons c rest ih =>
    intro s d h
    rw [runLoop_cons] at h ⊢
    rcases step_exhaust cfg st c with hs | hs | ⟨stt, hs⟩ | hs
    · rw [hs] at h ⊢
      exact ih st hinv s d h
    · rw [hs] at h ⊢
      exact ih { st with copied := st.copied + 1 } hinv s d h
    · rw [hs] at h ⊢
      refine ih _ ?_ s d h
      intro s2 d2 hmem
      dsimp [copiedState] at hmem ⊢
      rcases List.mem_append.mp hmem with hin | hin
      · obtain ⟨p, stt2, hp, hfile⟩ := hinv s2 d2 hin
        by_cases hpq : p = copyTarget st.fs c.1 (dpath cfg c)
        · subst hpq
          exact ⟨copyTarget st.fs c.1 (dpath cfg c), stt, hp, Fs.set_self _ _ _⟩
        · refine ⟨p, stt2, hp, ?_⟩
          rw [Fs.set_ne _ _ _ _ hpq,
              Fs.mkdirp_of_isSome _ _ _ (by rw [hfile]; rfl), hfile]
      · rcases List.mem_cons.mp hin with heq | hin
        · cases heq
        · rcases List.mem_singleton.mp hin with heq
          injection heq with h1 h2
          subst h1
          subst h2
          exact ⟨copyTarget st.fs c.1 (dpath cfg c), stt,
            copyTarget_cases st.fs c.1 (dpath cfg c), Fs.set_self _ _ _⟩
    · rw [hs] at h ⊢
      dsimp [errorState] at h ⊢
      rcases List.mem_append.mp h with hin | hin
      · obtain ⟨p, stt2, hp, hfile⟩ := hinv s d hin
        refine ⟨p, stt2, hp, ?_⟩
        rw [Fs.mkdirp_of_isSome _ _ _ (by rw [hfile]; rfl), hfile]
      · rcases List.mem_singleton.mp hin with heq
        cases heq

theorem runLoop_dry (cfg : Config) (L : List (FsPath × FsPath)) (st : LoopState)
    (hdry : cfg.dryRun = true) :
    (runLoop cfg L st).2 = none ∧
    (runLoop cfg L st).1.fs = st.fs ∧
    (runLoop cfg L st).1.trace = st.trace ∧
    (runLoop cfg L st).1.copied =
      st.copied + L.countP (fun c => runDecision st.fs cfg.destination c == .copy) := by
  induction L generalizing st with
  | nil => simp [runLoop_nil]
  | cons c rest ih =>
    rw [runLoop_cons]
    cases hdec : runDecision st.fs cfg.destination c with
    | skip =>
      rw [step_skip cfg st c hdec]
      obtain ⟨h1, h2, h3, h4⟩ := ih st
      refine ⟨h1, h2, h3, ?_⟩
      rw [h4, List.countP_cons_of_neg]
      simp [hdec]
    | copy =>
      rw [step_copy_dry cfg st c hdec hdry]
      obtain ⟨h1, h2, h3, h4⟩ := ih { st with copied := st.copied + 1 }
      dsimp only at h2 h3 h4
      refine ⟨h1, h2, h3, ?_⟩
      rw [h4, List.countP_cons_of_pos]
      · omega
      · simp [hdec]

theorem runLoop_skip_all (cfg : Config) (L : List (FsPath × FsPath)) (st : LoopState)
    (h : ∀ c ∈ L, runDecision st.fs cfg.destination c = .skip) :
    runLoop cfg L st = (st, none) := by
  induction L with
  | nil => rfl
  | cons c rest ih =>
    rw [runLoop_cons, step_skip cfg st c (h c (List.mem_cons_self c rest))]
    exact ih (fun c2 hc2 => h c2 (List.mem_cons_of_mem c hc2))

/-! ### Decomposing a whole `backup` run -/

theorem backup_missing_eq (cfg : Config) (fs0 : Fs) (m : Source) (ms : List Source)
    (hf : cfg.sources.filter (fun s => (fs0 s.path).isNone) = m :: ms) :
    backup cfg fs0 =
      { trace := startTrace cfg ++ missingTrace cfg (m :: ms),
        fs := fs0,
        outcome := .sysExit
          ("One or more sources do not exist. First missing: " ++ pathString m.path) } := by
  unfold backup
  rw [hf]

theorem backup_loop_none_eq (cfg : Config) (fs0 : Fs) (st : LoopState)
    (hf : cfg.sources.filter (fun s => (fs0 s.path).isNone) = [])
    (hrl : runLoop cfg (candidates cfg)
        ⟨if cfg.dryRun then fs0 else fs0.mkdirp cfg.destination, 0, []⟩ = (st, none)) :
    backup cfg fs0 =
      { trace := startTrace cfg
          ++ (if cfg.dryRun then [] else [Effect.mkdirp cfg.destination])
          ++ st.trace ++ endTrace cfg (candidates cfg).length st.copied,
        fs := st.fs,
        outcome := .completed (candidates cfg).length st.copied cfg.dryRun } := by
  unfold backup
  rw [hf]
  dsimp only
  rw [hrl]

theorem backup_loop_err_eq (cfg : Config) (fs0 : Fs) (st : LoopState) (src : FsPath)
    (hf : cfg.sources.filter (fun s => (fs0 s.path).isNone) = [])
    (hrl : runLoop cfg (candidates cfg)
        ⟨if cfg.dryRun then fs0 else fs0.mkdirp cfg.destination, 0, []⟩ = (st, some src)) :
    backup cfg fs0 =
      { trace := startTrace cfg
          ++ (if cfg.dryRun then [] else [Effect.mkdirp cfg.destination])
          ++ st.trace,
        fs := st.fs,
        outcome := .ioError src } := by
  unfold backup
  rw [hf]
  dsimp only
  rw [hrl]

/-- Every mutating effect of the start/missing/end plumbing is a log
write to the configured log file. -/
theorem plumbing_mutation (cfg : Config) (missing : List Source)
    (evaluated copied : Nat) (e : Effect)
    (h : e ∈ startTrace cfg ∨ e ∈ missingTrace cfg missing ∨
         e ∈ endTrace cfg evaluated copied)
    (hm : e.isMutation = true) :
    ∃ message, e = .logWrite cfg.logfile message := by
  rcases h with h | h | h
  · unfold startTrace at h
    rcases List.mem_append.mp h with h | h
    · by_cases hn : cfg.notifier = true
      · rw [if_pos hn] at h
        rcases List.mem_singleton.mp h with rfl
        simp [Effect.isMutation] at hm
      · rw [if_neg hn] at h
        simp at h
    · rcases List.mem_singleton.mp h with rfl
      exact ⟨_, rfl⟩
  · unfold missingTrace at h
    obtain ⟨s, _, rfl⟩ := List.mem_map.mp h
    exact ⟨_, rfl⟩
  · unfold endTrace at h
    rcases List.mem_append.mp h with h | h
    · by_cases hn : cfg.notifier = true
      · rw [if_pos hn] at h
        rcases List.mem_singleton.mp h with rfl
        simp [Effect.isMutation] at hm
      · rw [if_neg hn] at h
        simp at h
    · rcases List.mem_cons.mp h with rfl | h
      · exact ⟨_, rfl⟩
      · rcases List.mem_singleton.mp h with rfl
        simp [Effect.isMutation] at hm

/-- Every copy a `backup` run performs is of an enumerated candidate,
to that candidate's computed destination path. -/
theorem backup_copy2_src (cfg : Config) (fs0 : Fs) (s d : FsPath)
    (h : Effect.copy2 s d ∈ (backup cfg fs0).trace) :
    ∃ b, (s, b) ∈ candidates cfg ∧ d = dest_path_of cfg.destination s b := by
  have hplumb : ∀ (missing : List Source) (ev cp : Nat),
      (Effect.copy2 s d ∈ startTrace cfg ∨
       Effect.copy2 s d ∈ missingTrace cfg missing ∨
       Effect.copy2 s d ∈ endTrace cfg ev cp) → False := by
    intro missing ev cp hmem
    obtain ⟨message, hmsg⟩ := plumbing_mutation cfg missing ev cp _ hmem rfl
    cases hmsg
  have hdest : ∀ e, e ∈ (if cfg.dryRun then ([] : List Effect)
      else [Effect.mkdirp cfg.destination]) → e = Effect.mkdirp cfg.destination := by
    intro e he
    by_cases hdry : cfg.dryRun = true
    · rw [if_pos hdry] at he
      simp at he
    · rw [if_neg hdry] at he
      exact List.mem_singleton.mp he
  cases hf : cfg.sources.filter (fun t => (fs0 t.path).isNone) with
  | cons m ms =>
    rw [backup_missing_eq cfg fs0 m ms hf] at h
    rcases List.mem_append.mp h with h | h
    · exact absurd (hplumb [] 0 0 (Or.inl h)) id
    · exact absurd (hplumb (m :: ms) 0 0 (Or.inr (Or.inl h))) id
  | nil =>
    rcases hrl : runLoop cfg (candidates cfg)
        ⟨if cfg.dryRun then fs0 else fs0.mkdirp cfg.destination, 0, []⟩ with ⟨st, err⟩
    have hloop : Effect.copy2 s d ∈ st.trace →
        ∃ b, (s, b) ∈ candidates cfg ∧ d = dest_path_of cfg.destination s b := by
      intro hmem
      rcases runLoop_copy2_src cfg (candidates cfg)
          ⟨if cfg.dryRun then fs0 else fs0.mkdirp cfg.destination, 0, []⟩ s d
          (by rw [hrl]; exact hmem) with hin | hgoal
      · simp at hin
      · exact hgoal
    cases err with
    | some src =>
      rw [backup_loop_err_eq cfg fs0 st src hf hrl] at h
      rcases List.mem_append.mp h with h | h
      · rcases List.mem_append.mp h with h | h
        · exact absurd (hplumb [] 0 0 (Or.inl h)) id
        · cases hdest _ h
      · exact hloop h
    | none =>
      rw [backup_loop_none_eq cfg fs0 st hf hrl] at h
      rcases List.mem_append.mp h with h | h
      · rcases List.mem_append.mp h with h | h
        · rcases List.mem_append.mp h with h | h
          · exact absurd (hplumb [] 0 0 (Or.inl h)) id
          · cases hdest _ h
        · exact hloop h
      · exact absurd (hplumb [] (candidates cfg).length st.copied
          (Or.inr (Or.inr h))) id

/-! ### The claims -/

/-- C1, counterexample: on the spec's own scenario (sources
`/data/photos` and `/data/docs`, destination `/backup`), the code lands
the files at the flat paths `/backup/img1.jpg` and `/backup/readme.txt`,
not at the namespaced paths `/backup/photos/img1.jpg` and
`/backup/docs/readme.txt` the claim requires; the code's layout mapping
differs from the namespaced one at this candidate. -/
theorem C1_counterexample :
    (backup scenarioCfg scenarioFs).fs ["/", "backup", "photos", "img1.jpg"] = none ∧
    (backup scenarioCfg scenarioFs).fs ["/", "backup", "img1.jpg"] =
      some (.file ⟨2048, 100⟩) ∧
    (backup scenarioCfg scenarioFs).fs ["/", "backup", "docs", "readme.txt"] = none ∧
    (backup scenarioCfg scenarioFs).fs ["/", "backup", "readme.txt"] =
      some (.file ⟨1024, 100⟩) ∧
    dest_path_of ["/", "backup"] (photosPath ++ ["img1.jpg"]) photosPath ≠
      dest_path_namespaced ["/", "backup"] (photosPath ++ ["img1.jpg"]) photosPath := by
  decide

/-- C1 (amended): the code implements the flat-merge layout: every copy
a run performs targets the destination root joined with the candidate's
path relative to its owning source root (no per-source namespace
segment); in the spec's scenario the files land at `/backup/img1.jpg`
and `/backup/readme.txt`. -/
theorem C1_flat_layout (cfg : Config) (fs0 : Fs) (s d : FsPath)
    (h : Effect.copy2 s d ∈ (backup cfg fs0).trace) :
    ∃ src ∈ cfg.sources, s ∈ iter_files src.walk ∧
      d = cfg.destination ++ s.drop src.path.length := by
  obtain ⟨b, hb, hd⟩ := backup_copy2_src cfg fs0 s d h
  obtain ⟨src, hsrc, hiter, hpath⟩ := mem_candidates cfg (s, b) hb
  have hiter2 : s ∈ iter_files src.walk := hiter
  have hb2 : b = src.path := hpath
  refine ⟨src, hsrc, hiter2, ?_⟩
  rw [hd, hb2]
  rfl

theorem C1_flat_layout_witness :
    ∃ src ∈ scenarioCfg.sources,
      photosPath ++ ["img1.jpg"] ∈ iter_files src.walk ∧
      ["/", "backup", "img1.jpg"] =
        scenarioCfg.destination ++
          (photosPath ++ ["img1.jpg"]).drop src.path.length :=
  C1_flat_layout scenarioCfg scenarioFs (photosPath ++ ["img1.jpg"])
    ["/", "backup", "img1.jpg"] (by decide)

/-- C2: the sync decision is Copy when no destination entry exists;
Skip when an entry exists, sizes agree and the destination's mtime is
at least the source's; Copy in every other case, including when a stat
of either side fails. -/
theorem C2_sync_decision_cases :
    (∀ srcStat destStat, sync_decision false srcStat destStat = .copy) ∧
    (∀ s d, s.size = d.size → d.mtime ≥ s.mtime →
        sync_decision true (some s) (some d) = .skip) ∧
    (∀ s d, ¬ (s.size = d.size ∧ d.mtime ≥ s.mtime) →
        sync_decision true (some s) (some d) = .copy) ∧
    (∀ destStat, sync_decision true none destStat = .copy) ∧
    (∀ srcStat, sync_decision true srcStat none = .copy) := by
  refine ⟨fun _ _ => rfl, ?_, ?_, ?_, ?_⟩
  · intro s d h1 h2
    show (if s.size = d.size ∧ d.mtime ≥ s.mtime
          then SyncDecision.skip else SyncDecision.copy) = SyncDecision.skip
    rw [if_pos ⟨h1, h2⟩]
  · intro s d h
    show (if s.size = d.size ∧ d.mtime ≥ s.mtime
          then SyncDecision.skip else SyncDecision.copy) = SyncDecision.copy
    rw [if_neg h]
  · intro destStat
    cases destStat <;> rfl
  · intro srcStat
    cases srcStat <;> rfl

theorem C2_witness :
    sync_decision true (some ⟨5, 10⟩) (some ⟨5, 12⟩) = .skip ∧
    sync_decision true (some ⟨5, 10⟩) (some ⟨6, 12⟩) = .copy ∧
    sync_decision false none none = .copy :=
  ⟨C2_sync_decision_cases.2.1 ⟨5, 10⟩ ⟨5, 12⟩ rfl (by decide),
   C2_sync_decision_cases.2.2.1 ⟨5, 10⟩ ⟨6, 12⟩ (by decide),
   C2_sync_decision_cases.1 none none⟩

/-- C6: no hidden path - one whose name or any path component is
dot-prefixed - is ever enumerated by the traversal or copied by a run:
every enumerated path and every copied source path is non-hidden. -/
theorem C6_hidden_never_enumerated_or_copied :
    (∀ walk p, p ∈ iter_files walk → is_hidden p = false) ∧
    (∀ cfg fs0 s d, Effect.copy2 s d ∈ (backup cfg fs0).trace →
        is_hidden s = false) := by
  refine ⟨fun walk p h => not_hidden_of_mem_iter_files walk p h, ?_⟩
  intro cfg fs0 s d h
  obtain ⟨b, hb, _⟩ := backup_copy2_src cfg fs0 s d h
  obtain ⟨src, _, hiter, _⟩ := mem_candidates cfg (s, b) hb
  exact not_hidden_of_mem_iter_files src.walk s hiter

theorem C6_witness : is_hidden ["/", "src", "visible.txt"] = false :=
  C6_hidden_never_enumerated_or_copied.1
    [(["/", "src"], ["visible.txt", ".env"]),
     (["/", "src", ".cache"], ["secret.txt"])]
    ["/", "src", "visible.txt"] (by decide)

/-- C8: a KeyboardInterrupt during the run is caught at top level;
the handler logs, notifies (when a notifier is configured) and exits
with code 130, which differs from the exit code 1 used for
configuration errors raised as `SystemExit(message)`. -/
theorem C8_interrupt_exit (sourcesArg destArg : String) (logfile : FsPath)
    (notifier : Bool) (cfg : Config) (fs0 : Fs) (partialTrace : List Effect)
    (hs : sourcesArg ≠ "") (hd : destArg ≠ "") :
    (main sourcesArg destArg logfile notifier cfg fs0 true partialTrace).2 =
      .exitCode 130 ∧
    ((main sourcesArg destArg logfile notifier cfg fs0 true partialTrace).2).code = 130 ∧
    Effect.logWrite logfile "Backup interrupted by user" ∈
      (main sourcesArg destArg logfile notifier cfg fs0 true partialTrace).1 ∧
    (notifier = true → Effect.notifyCall "Backup" "Backup interrupted" ∈
      (main sourcesArg destArg logfile notifier cfg fs0 true partialTrace).1) ∧
    (∀ message, ExitStatus.code (.exitMessage message) ≠ 130) := by
  unfold main
  rw [if_neg hs, if_neg hd, if_pos rfl]
  refine ⟨rfl, rfl, ?_, ?_, ?_⟩
  · simp
  · intro hn
    simp [hn]
  · intro message
    simp [ExitStatus.code]

theorem C8_witness :
    (main "src" "dst" ["/", "var", "b.log"] true scenarioCfg scenarioFs
      true []).2.code = 130 :=
  (C8_interrupt_exit "src" "dst" ["/", "var", "b.log"] true scenarioCfg scenarioFs
    [] (by decide) (by decide)).2.1

/-- C10: `is_hidden` tests every segment of the candidate's absolute
path, so a source root that itself lies under a dot-prefixed directory
is traversed to nothing: the enumeration is empty and a run over just
that source evaluates and copies zero files. -/
theorem C10_hidden_source_root (s : Source) (cfg : Config) (fs0 : Fs)
    (hcoh : ∀ rf ∈ s.walk, s.path <+: rf.1)
    (hhid : is_hidden s.path = true)
    (hcfg : cfg.sources = [s])
    (hex : (fs0 s.path).isSome = true) :
    iter_files s.walk = [] ∧
    (backup cfg fs0).outcome = .completed 0 0 cfg.dryRun := by
  have hnil := iter_files_eq_nil s hcoh hhid
  refine ⟨hnil, ?_⟩
  have hnone : (fs0 s.path).isNone = false := by
    cases hfs : fs0 s.path with
    | none => rw [hfs] at hex; cases hex
    | some e => rfl
  have hf : cfg.sources.filter (fun t => (fs0 t.path).isNone) = [] := by
    rw [hcfg]
    simp [List.filter, hnone]
  have hcand : candidates cfg = [] := by
    rw [candidates, hcfg]
    simp [hnil]
  have hrl : runLoop cfg (candidates cfg)
      ⟨if cfg.dryRun then fs0 else fs0.mkdirp cfg.destination, 0, []⟩ =
      (⟨if cfg.dryRun then fs0 else fs0.mkdirp cfg.destination, 0, []⟩, none) := by
    rw [hcand, runLoop_nil]
  rw [backup_loop_none_eq cfg fs0 _ hf hrl]
  dsimp only
  rw [hcand]
  rfl

theorem C10_witness :
    iter_files hiddenRootSource.walk = [] ∧
    (backup hiddenRootCfg hiddenRootFs).outcome = .completed 0 0 false :=
  C10_hidden_source_root hiddenRootSource hiddenRootCfg hiddenRootFs
    (by decide) (by decide) rfl (by decide)

/-- C3, counterexample: a run with the dry-run flag set still mutates
the filesystem - `log_line` creates the log file's parent directories
and appends to the log on every run, dry or not - so the trace of a
dry run contains a mutating effect. -/
theorem C3_counterexample :
    dryScenarioCfg.dryRun = true ∧
    (backup dryScenarioCfg scenarioFs).trace.any Effect.isMutation = true := by
  decide

/-- C3 (amended): a dry run performs no filesystem mutation apart from
writing the log file: the modeled filesystem is unchanged at every
path, and every mutating effect in the trace is a log write to the
configured log file (no destination directory creation, no copy). -/
theorem C3_dry_run_log_only (cfg : Config) (fs0 : Fs) (hdry : cfg.dryRun = true) :
    (∀ q, (backup cfg fs0).fs q = fs0 q) ∧
    (∀ e ∈ (backup cfg fs0).trace, e.isMutation = true →
        ∃ message, e = .logWrite cfg.logfile message) := by
  cases hf : cfg.sources.filter (fun t => (fs0 t.path).isNone) with
  | cons m ms =>
    rw [backup_missing_eq cfg fs0 m ms hf]
    refine ⟨fun q => rfl, ?_⟩
    intro e he hm
    rcases List.mem_append.mp he with h2 | h2
    · exact plumbing_mutation cfg [] 0 0 e (Or.inl h2) hm
    · exact plumbing_mutation cfg (m :: ms) 0 0 e (Or.inr (Or.inl h2)) hm
  | nil =>
    rcases hrl : runLoop cfg (candidates cfg)
        ⟨if cfg.dryRun then fs0 else fs0.mkdirp cfg.destination, 0, []⟩ with ⟨st, err⟩
    obtain ⟨h1, h2, h3, _⟩ := runLoop_dry cfg (candidates cfg)
      ⟨if cfg.dryRun then fs0 else fs0.mkdirp cfg.destination, 0, []⟩ hdry
    rw [hrl] at h1 h2 h3
    dsimp only at h1 h2 h3
    subst h1
    rw [backup_loop_none_eq cfg fs0 st hf hrl]
    constructor
    · intro q
      dsimp only
      rw [h2, if_pos hdry]
    · intro e he hm
      dsimp only at he
      rw [if_pos hdry, h3] at he
      simp only [List.append_nil, List.nil_append] at he
      rcases List.mem_append.mp he with h4 | h4
      · exact plumbing_mutation cfg [] 0 0 e (Or.inl h4) hm
      · exact plumbing_mutation cfg [] (candidates cfg).length st.copied
          e (Or.inr (Or.inr h4)) hm

theorem C3_witness :
    (backup dryScenarioCfg scenarioFs).fs ["/", "backup", "img1.jpg"] =
      scenarioFs ["/", "backup", "img1.jpg"] :=
  (C3_dry_run_log_only dryScenarioCfg scenarioFs rfl).1 ["/", "backup", "img1.jpg"]

/-- C4, counterexample: two sources holding `a.txt` with equal size and
mtime collide at the flat destination path; the dry run reports
"would copy: 2" but the real run copies only 1, because the first real
copy makes the destination look up to date for the second candidate. -/
theorem C4_counterexample :
    (backup { collideCfg with dryRun := true } collideFs).outcome =
      .completed 2 2 true ∧
    (backup collideCfg collideFs).outcome = .completed 2 1 false ∧
    (2 : Nat) ≠ 1 := by
  decide

/-- C5, counterexample: two sources holding `a.txt` with different
sizes keep overwriting each other's flat destination: the second run
(over the filesystem the first run produced) copies 2 files, not 0. -/
theorem C5_counterexample :
    (backup collideCfg collideFs2).outcome = .completed 2 2 false ∧
    (backup collideCfg (backup collideCfg collideFs2).fs).outcome =
      .completed 2 2 false ∧
    (2 : Nat) ≠ 0 := by
  decide

/-- C7, counterexample: validation checks only existence, not
directory-ness - a source existing as a regular file passes and the
run completes normally instead of aborting - and even when a source is
missing the abort happens after the run has already mutated the
filesystem by writing the log. -/
theorem C7_counterexample :
    fileSrcFs ["/", "data", "notes.txt"] = some (.file ⟨5, 5⟩) ∧
    (backup fileSrcCfg fileSrcFs).outcome = .completed 0 0 false ∧
    (backup missingCfg fileSrcFs).outcome =
      .sysExit "One or more sources do not exist. First missing: /gone" ∧
    (backup missingCfg fileSrcFs).trace.any Effect.isMutation = true := by
  decide

/-- C7 (amended): sources are validated for existence only (a source
existing as a non-directory passes validation); when some source path
has no filesystem entry at all, the run aborts via SystemExit before
any copy and before any destination mutation: the modeled filesystem
is unchanged and the only mutating effects are log writes (the start
line and one line per missing source). -/
theorem C7_missing_source_aborts (cfg : Config) (fs0 : Fs)
    (h : ∃ s ∈ cfg.sources, fs0 s.path = none) :
    (∃ message, (backup cfg fs0).outcome = .sysExit message) ∧
    (∀ q, (backup cfg fs0).fs q = fs0 q) ∧
    (∀ e ∈ (backup cfg fs0).trace, e.isMutation = true →
        ∃ message, e = .logWrite cfg.logfile message) := by
  obtain ⟨s, hs, hnone⟩ := h
  have hmem : s ∈ cfg.sources.filter (fun t => (fs0 t.path).isNone) := by
    rw [List.mem_filter]
    exact ⟨hs, by rw [hnone]; rfl⟩
  cases hf : cfg.sources.filter (fun t => (fs0 t.path).isNone) with
  | nil =>
    rw [hf] at hmem
    cases hmem
  | cons m ms =>
    rw [backup_missing_eq cfg fs0 m ms hf]
    refine ⟨⟨_, rfl⟩, fun q => rfl, ?_⟩
    intro e he hm
    rcases List.mem_append.mp he with h2 | h2
    · exact plumbing_mutation cfg [] 0 0 e (Or.inl h2) hm
    · exact plumbing_mutation cfg (m :: ms) 0 0 e (Or.inr (Or.inl h2)) hm

theorem C7_witness :
    (backup missingCfg fileSrcFs).fs ["/", "backup"] = fileSrcFs ["/", "backup"] :=
  (C7_missing_source_aborts missingCfg fileSrcFs
    ⟨⟨["/", "gone"], []⟩, List.mem_singleton.mpr rfl, by decide⟩).2.1 ["/", "backup"]

/-- C9: an I/O error while copying a file propagates and aborts the
run: the summary line is never printed, every file copied before the
failure remains present as a regular file - at its destination path,
or, when a directory already sat at that path, inside it under the
source's base name (`shutil.copy2` copies into an existing directory) -
and the process (when the run was started through `main`) terminates
with a non-zero exit. -/
theorem C9_io_error_propagates (cfg : Config) (fs0 : Fs) (src : FsPath)
    (h : (backup cfg fs0).outcome = .ioError src) :
    (∀ message, Effect.printLine message ∉ (backup cfg fs0).trace) ∧
    (∀ s d, Effect.copy2 s d ∈ (backup cfg fs0).trace →
        ∃ p stt, (p = d ∨ p = d ++ [s.getLastD ""]) ∧
          (backup cfg fs0).fs p = some (.file stt)) ∧
    (∀ sourcesArg destArg logfile notifier partialTrace,
        sourcesArg ≠ "" → destArg ≠ "" →
        (main sourcesArg destArg logfile notifier cfg fs0 false partialTrace).2 =
          .exitCode 1) := by
  cases hf : cfg.sources.filter (fun t => (fs0 t.path).isNone) with
  | cons m ms =>
    rw [backup_missing_eq cfg fs0 m ms hf] at h
    cases h
  | nil =>
    rcases hrl : runLoop cfg (candidates cfg)
        ⟨if cfg.dryRun then fs0 else fs0.mkdirp cfg.destination, 0, []⟩ with ⟨st, err⟩
    cases err with
    | none =>
      rw [backup_loop_none_eq cfg fs0 st hf hrl] at h
      cases h
    | some src2 =>
      have heq := backup_loop_err_eq cfg fs0 st src2 hf hrl
      refine ⟨?_, ?_, ?_⟩
      · intro message hmem
        rw [heq] at hmem
        dsimp only at hmem
        rcases List.mem_append.mp hmem with h2 | h2
        · rcases List.mem_append.mp h2 with h3 | h3
          · unfold startTrace at h3
            rcases List.mem_append.mp h3 with h4 | h4
            · by_cases hn : cfg.notifier = true
              · rw [if_pos hn] at h4
                rcases List.mem_singleton.mp h4 with heq2
                cases heq2
              · rw [if_neg hn] at h4
                simp at h4
            · rcases List.mem_singleton.mp h4 with heq2
              cases heq2
          · by_cases hdry : cfg.dryRun = true
            · rw [if_pos hdry] at h3
              simp at h3
            · rw [if_neg hdry] at h3
              rcases List.mem_singleton.mp h3 with heq2
              cases heq2
        · rcases runLoop_trace_elem cfg (candidates cfg)
              ⟨if cfg.dryRun then fs0 else fs0.mkdirp cfg.destination, 0, []⟩ _
              (by rw [hrl]; exact h2) with h3 | ⟨p, h3⟩ | ⟨a, b, h3⟩
          · simp at h3
          · cases h3
          · cases h3
      · intro s d hmem
        rw [heq] at hmem ⊢
        dsimp only at hmem ⊢
        have hmem2 : Effect.copy2 s d ∈ st.trace := by
          rcases List.mem_append.mp hmem with h2 | h2
          · rcases List.mem_append.mp h2 with h3 | h3
            · exfalso
              obtain ⟨m2, hm2⟩ := plumbing_mutation cfg [] 0 0 _ (Or.inl h3) rfl
              cases hm2
            · exfalso
              by_cases hdry : cfg.dryRun = true
              · rw [if_pos hdry] at h3
                simp at h3
              · rw [if_neg hdry] at h3
                rcases List.mem_singleton.mp h3 with heq2
                cases heq2
          · exact h2
        have hrem := runLoop_files_remain cfg (candidates cfg)
          ⟨if cfg.dryRun then fs0 else fs0.mkdirp cfg.destination, 0, []⟩
          (by intro s2 d2 hh; simp at hh) s d (by rw [hrl]; exact hmem2)
        rw [hrl] at hrem
        exact hrem
      · intro sourcesArg destArg logfile notifier partialTrace hsne hdne
        unfold main
        rw [if_neg hsne, if_neg hdne, if_neg (by simp)]
        dsimp only
        rw [heq]

theorem C9_witness :
    Effect.printLine "summary" ∉ (backup ioFailCfg ioFailFs).trace :=
  (C9_io_error_propagates ioFailCfg ioFailFs ["/", "s", "a.txt"] (by decide)).1
    "summary"

/-! ### The real-run loop invariant (for the dry-run/real-run count
equivalence and for idempotence) -/

theorem runDecision_congr (fs1 fs2 : Fs) (destination : FsPath)
    (c : FsPath × FsPath)
    (h1 : fs1 c.1 = fs2 c.1)
    (h2 : fs1 (dest_path_of destination c.1 c.2) =
          fs2 (dest_path_of destination c.1 c.2)) :
    runDecision fs1 destination c = runDecision fs2 destination c := by
  simp only [runDecision, statOf]
  rw [h1, h2]

theorem dest_pre (cfg : Config) (c : FsPath × FsPath) :
    cfg.destination <+: dpath cfg c :=
  List.prefix_append _ _

theorem dpath_not_pre_dest (cfg : Config) (c : FsPath × FsPath)
    (h : c.2.length < c.1.length) : ¬ dpath cfg c <+: cfg.destination := by
  intro hp
  have hlen := hp.length_le
  have hdp : (dpath cfg c).length =
      cfg.destination.length + (c.1.length - c.2.length) := by
    show (cfg.destination ++ c.1.drop c.2.length).length = _
    rw [List.length_append, List.length_drop]
  omega

theorem runLoop_real_spec (cfg : Config) (fs0 : Fs)
    (hdry : cfg.dryRun = false) (hio : ∀ f, cfg.ioFail f = false) :
    ∀ (L : List (FsPath × FsPath)) (st : LoopState),
    (∀ c ∈ L, ∃ stt, fs0 c.1 = some (Entry.file stt)) →
    (∀ c ∈ L, ¬ cfg.destination <+: c.1) →
    (∀ c ∈ L, st.fs c.1 = fs0 c.1 ∧ st.fs (dpath cfg c) = fs0 (dpath cfg c)) →
    L.Pairwise (fun a b =>
      ¬ dpath cfg a <+: dpath cfg b ∧ ¬ dpath cfg b <+: dpath cfg a) →
    (runLoop cfg L st).2 = none ∧
    (runLoop cfg L st).1.copied =
      st.copied + L.countP (fun c => runDecision fs0 cfg.destination c == .copy) ∧
    (∀ q, (st.fs q).isSome = true → (∀ c ∈ L, ¬ dpath cfg c <+: q) →
        (runLoop cfg L st).1.fs q = st.fs q) ∧
    (∀ q, (∀ c ∈ L, ¬ q <+: dpath cfg c ∧ ¬ dpath cfg c <+: q) →
        (runLoop cfg L st).1.fs q = st.fs q) ∧
    (∀ c ∈ L, (runLoop cfg L st).1.fs c.1 = fs0 c.1) ∧
    (∀ c ∈ L,
      (runDecision fs0 cfg.destination c = .copy →
        ∃ stt, fs0 c.1 = some (Entry.file stt) ∧
          (runLoop cfg L st).1.fs (copyTarget fs0 c.1 (dpath cfg c)) =
            some (Entry.file stt)) ∧
      (runDecision fs0 cfg.destination c = .skip →
        (runLoop cfg L st).1.fs (dpath cfg c) = fs0 (dpath cfg c))) := by
  intro L
  induction L with
  | nil =>
    intro st _ _ _ _
    rw [runLoop_nil]
    refine ⟨rfl, by simp, fun q _ _ => rfl, fun q _ => rfl,
      fun c hc => absurd hc (List.not_mem_nil c),
      fun c hc => absurd hc (List.not_mem_nil c)⟩
  | cons c rest ih =>
    intro st hsrc hnd hagree hpair
    have hmemc : c ∈ c :: rest := List.mem_cons_self c rest
    have hpair_head : ∀ b ∈ rest,
        ¬ dpath cfg c <+: dpath cfg b ∧ ¬ dpath cfg b <+: dpath cfg c :=
      (List.pairwise_cons.mp hpair).1
    have hpair_rest := (List.pairwise_cons.mp hpair).2
    obtain ⟨sttc, hsttc⟩ := hsrc c hmemc
    have hagc := hagree c hmemc
    have hdeceq : runDecision st.fs cfg.destination c =
        runDecision fs0 cfg.destination c :=
      runDecision_congr st.fs fs0 cfg.destination c hagc.1 hagc.2
    have hsrc_rest : ∀ b ∈ rest, ∃ stt, fs0 b.1 = some (Entry.file stt) :=
      fun b hb => hsrc b (List.mem_cons_of_mem c hb)
    have hnd_rest : ∀ b ∈ rest, ¬ cfg.destination <+: b.1 :=
      fun b hb => hnd b (List.mem_cons_of_mem c hb)
    -- no destination path of any candidate is a prefix of a source path
    have hsrc_not_under : ∀ b ∈ c :: rest, ∀ c2, ¬ dpath cfg c2 <+: b.1 := by
      intro b hb c2 hp
      exact hnd b hb ((dest_pre cfg c2).trans hp)
    cases hdec : runDecision fs0 cfg.destination c with
    | skip =>
      rw [runLoop_cons, step_skip cfg st c (by rw [hdeceq, hdec])]
      obtain ⟨i1, i2, i3, i4, i5, i6⟩ :=
        ih st hsrc_rest hnd_rest
          (fun b hb => hagree b (List.mem_cons_of_mem c hb)) hpair_rest
      refine ⟨i1, ?_, ?_, ?_, ?_, ?_⟩
      · rw [i2, List.countP_cons_of_neg]
        simp [hdec]
      · intro q hq hqne
        exact i3 q hq (fun b hb => hqne b (List.mem_cons_of_mem c hb))
      · intro q hq
        exact i4 q (fun b hb => hq b (List.mem_cons_of_mem c hb))
      · intro c2 hc2
        rcases List.mem_cons.mp hc2 with rfl | hc2
        · have h3 := i3 c2.1 (by rw [hagc.1, hsttc]; rfl)
            (fun b hb => hsrc_not_under c2 hmemc b)
          rw [h3, hagc.1]
        · exact i5 c2 hc2
      · intro c2 hc2
        rcases List.mem_cons.mp hc2 with rfl | hc2
        · constructor
          · intro hcopy
            rw [hdec] at hcopy
            cases hcopy
          · intro _
            have h4 := i4 (dpath cfg c2)
              (fun b hb => ⟨(hpair_head b hb).1, (hpair_head b hb).2⟩)
            rw [h4, hagc.2]
        · exact i6 c2 hc2
    | copy =>
      have hsrcst : st.fs c.1 = some (.file sttc) := by rw [hagc.1, hsttc]
      rw [runLoop_cons,
        step_copy_real cfg st c sttc (by rw [hdeceq, hdec]) hdry hsrcst (hio c.1)]
      have hA : ∀ q, ¬ q <+: dpath cfg c → ¬ dpath cfg c <+: q →
          (copiedState cfg st c sttc).fs q = st.fs q := by
        intro q hq1 hq2
        show ((st.fs.mkdirp (dpath cfg c).dropLast).set
          (copyTarget st.fs c.1 (dpath cfg c)) (.file sttc)) q = st.fs q
        rw [Fs.set_ne _ _ _ _ (ne_copyTarget st.fs c.1 (dpath cfg c) q hq2)]
        exact Fs.mkdirp_not_pre _ _ _
          (fun hp => hq1 (hp.trans (List.dropLast_prefix _)))
      have hB : ∀ q, (st.fs q).isSome = true → ¬ dpath cfg c <+: q →
          (copiedState cfg st c sttc).fs q = st.fs q := by
        intro q hq hne
        show ((st.fs.mkdirp (dpath cfg c).dropLast).set
          (copyTarget st.fs c.1 (dpath cfg c)) (.file sttc)) q = st.fs q
        rw [Fs.set_ne _ _ _ _ (ne_copyTarget st.fs c.1 (dpath cfg c) q hne)]
        exact Fs.mkdirp_of_isSome _ _ _ hq
      have hC : (copiedState cfg st c sttc).fs
          (copyTarget st.fs c.1 (dpath cfg c)) = some (.file sttc) :=
        Fs.set_self _ _ _
      have hagree2 : ∀ b ∈ rest,
          (copiedState cfg st c sttc).fs b.1 = fs0 b.1 ∧
          (copiedState cfg st c sttc).fs (dpath cfg b) = fs0 (dpath cfg b) := by
        intro b hb
        have hab := hagree b (List.mem_cons_of_mem c hb)
        obtain ⟨sttb, hsttb⟩ := hsrc b (List.mem_cons_of_mem c hb)
        constructor
        · rw [hB b.1 (by rw [hab.1, hsttb]; rfl)
            (hsrc_not_under b (List.mem_cons_of_mem c hb) c), hab.1]
        · rw [hA (dpath cfg b) (hpair_head b hb).2 (hpair_head b hb).1, hab.2]
      obtain ⟨i1, i2, i3, i4, i5, i6⟩ :=
        ih (copiedState cfg st c sttc) hsrc_rest hnd_rest hagree2 hpair_rest
      refine ⟨i1, ?_, ?_, ?_, ?_, ?_⟩
      · rw [i2, List.countP_cons_of_pos _ _ (by simp [hdec])]
        show (copiedState cfg st c sttc).copied + _ = _
        have hcp : (copiedState cfg st c sttc).copied = st.copied + 1 := rfl
        rw [hcp]
        omega
      · intro q hq hqne
        have hqc := hqne c hmemc
        have hq2 : ((copiedState cfg st c sttc).fs q).isSome = true := by
          rw [hB q hq hqc]
          exact hq
        rw [i3 q hq2 (fun b hb => hqne b (List.mem_cons_of_mem c hb)),
          hB q hq hqc]
      · intro q hq
        rw [i4 q (fun b hb => hq b (List.mem_cons_of_mem c hb)),
          hA q (hq c hmemc).1 (hq c hmemc).2]
      · intro c2 hc2
        rcases List.mem_cons.mp hc2 with rfl | hc2
        · have hBc := hB c2.1 (by rw [hagc.1, hsttc]; rfl)
            (hsrc_not_under c2 hmemc c2)
          have hsome2 : ((copiedState cfg st c2 sttc).fs c2.1).isSome = true := by
            rw [hBc, hagc.1, hsttc]
            rfl
          rw [i3 c2.1 hsome2 (fun b hb => hsrc_not_under c2 hmemc b), hBc, hagc.1]
        · exact i5 c2 hc2
      · intro c2 hc2
        rcases List.mem_cons.mp hc2 with rfl | hc2
        · constructor
          · intro _
            refine ⟨sttc, hsttc, ?_⟩
            have hteq : copyTarget st.fs c2.1 (dpath cfg c2) =
                copyTarget fs0 c2.1 (dpath cfg c2) :=
              copyTarget_congr st.fs fs0 c2.1 (dpath cfg c2) hagc.2
            have hC0 : (copiedState cfg st c2 sttc).fs
                (copyTarget fs0 c2.1 (dpath cfg c2)) = some (.file sttc) := by
              rw [← hteq]
              exact hC
            have hsome3 : ((copiedState cfg st c2 sttc).fs
                (copyTarget fs0 c2.1 (dpath cfg c2))).isSome = true := by
              rw [hC0]
              rfl
            rw [i3 (copyTarget fs0 c2.1 (dpath cfg c2)) hsome3
              (fun b hb => not_pre_copyTarget fs0 c2.1 (dpath cfg c2)
                (dpath cfg b) (hpair_head b hb).2 (hpair_head b hb).1), hC0]
          · intro hskip
            rw [hdec] at hskip
            cases hskip
        · exact i6 c2 hc2

/-- When source and destination hold regular files with the same stat,
the decision is Skip. -/
theorem runDecision_self_skip (fs : Fs) (destination : FsPath)
    (c : FsPath × FsPath) (stt : Stat)
    (h1 : fs c.1 = some (.file stt))
    (h2 : fs (dest_path_of destination c.1 c.2) = some (.file stt)) :
    runDecision fs destination c = .skip := by
  simp only [runDecision, statOf]
  rw [h1, h2]
  show sync_decision true (some stt) (some stt) = .skip
  show (if stt.size = stt.size ∧ stt.mtime ≥ stt.mtime
        then SyncDecision.skip else SyncDecision.copy) = .skip
  rw [if_pos ⟨rfl, le_refl _⟩]

/-- C4 (amended): the dry-run "would copy" count equals the real run's
"copied" count over the same unchanged filesystem, provided the
candidates' source files exist as regular files outside the destination
subtree, each candidate lies strictly below its source root, and no two
candidates' destination paths coincide or nest (without that proviso
the counterexample applies: a real copy can change a later candidate's
decision, which a dry run never does). -/
theorem C4_dry_run_predicts (cfg : Config) (fs0 : Fs)
    (hdry : cfg.dryRun = false)
    (hio : ∀ f, cfg.ioFail f = false)
    (hexist : ∀ s ∈ cfg.sources, (fs0 s.path).isSome = true)
    (hsrc : ∀ c ∈ candidates cfg, ∃ stt, fs0 c.1 = some (Entry.file stt))
    (hnd : ∀ c ∈ candidates cfg, ¬ cfg.destination <+: c.1)
    (hrel : ∀ c ∈ candidates cfg, c.2.length < c.1.length)
    (hpair : (candidates cfg).Pairwise (fun a b =>
      ¬ dpath cfg a <+: dpath cfg b ∧ ¬ dpath cfg b <+: dpath cfg a)) :
    ∃ n k,
      (backup { cfg with dryRun := true } fs0).outcome = .completed n k true ∧
      (backup cfg fs0).outcome = .completed n k false := by
  have hf : cfg.sources.filter (fun t => (fs0 t.path).isNone) = [] := by
    rw [List.filter_eq_nil_iff]
    intro s hs
    have h2 := hexist s hs
    cases hfs : fs0 s.path with
    | none => rw [hfs] at h2; cases h2
    | some e => simp [hfs]
  -- the dry run
  rcases hrld : runLoop { cfg with dryRun := true }
      (candidates { cfg with dryRun := true })
      ⟨if ({ cfg with dryRun := true } : Config).dryRun then fs0
        else fs0.mkdirp ({ cfg with dryRun := true } : Config).destination,
       0, []⟩ with ⟨stD, errD⟩
  obtain ⟨d1, _, _, d4⟩ := runLoop_dry { cfg with dryRun := true }
    (candidates { cfg with dryRun := true })
    ⟨if ({ cfg with dryRun := true } : Config).dryRun then fs0
      else fs0.mkdirp ({ cfg with dryRun := true } : Config).destination,
     0, []⟩ rfl
  rw [hrld] at d1 d4
  dsimp only at d1 d4
  subst d1
  have houtD := backup_loop_none_eq { cfg with dryRun := true } fs0 stD hf hrld
  -- the real run
  have hinit : (if cfg.dryRun then fs0 else fs0.mkdirp cfg.destination) =
      fs0.mkdirp cfg.destination := by
    simp [hdry]
  rcases hrlr : runLoop cfg (candidates cfg)
      ⟨fs0.mkdirp cfg.destination, 0, []⟩ with ⟨stR, errR⟩
  have hagree0 : ∀ c ∈ candidates cfg,
      (fs0.mkdirp cfg.destination) c.1 = fs0 c.1 ∧
      (fs0.mkdirp cfg.destination) (dpath cfg c) = fs0 (dpath cfg c) := by
    intro c hc
    constructor
    · obtain ⟨stt, hstt⟩ := hsrc c hc
      exact Fs.mkdirp_of_isSome _ _ _ (by rw [hstt]; rfl)
    · exact Fs.mkdirp_not_pre _ _ _ (dpath_not_pre_dest cfg c (hrel c hc))
  obtain ⟨m1, m2, _, _, _, _⟩ := runLoop_real_spec cfg fs0 hdry hio
    (candidates cfg) ⟨fs0.mkdirp cfg.destination, 0, []⟩ hsrc hnd hagree0 hpair
  rw [hrlr] at m1 m2
  dsimp only at m1 m2
  subst m1
  have houtR := backup_loop_none_eq cfg fs0 stR hf (by rw [hinit]; exact hrlr)
  have hkk : stD.copied = stR.copied := by
    rw [d4, m2]
    rfl
  refine ⟨(candidates cfg).length, stR.copied, ?_, ?_⟩
  · rw [houtD]
    dsimp only
    rw [hkk]
    rfl
  · rw [houtR]
    dsimp only
    rw [hdry]

theorem C4_witness :
    ∃ n k,
      (backup { scenarioCfg with dryRun := true } scenarioFs).outcome =
        .completed n k true ∧
      (backup scenarioCfg scenarioFs).outcome = .completed n k false :=
  C4_dry_run_predicts scenarioCfg scenarioFs rfl (fun _ => rfl) (by decide)
    (by
      intro c hc
      have hcand : candidates scenarioCfg =
          [(photosPath ++ ["img1.jpg"], photosPath),
           (docsPath ++ ["readme.txt"], docsPath)] := by decide
      rw [hcand] at hc
      rcases List.mem_cons.mp hc with rfl | hc
      · exact ⟨⟨2048, 100⟩, by decide⟩
      · rcases List.mem_singleton.mp hc with rfl
        exact ⟨⟨1024, 100⟩, by decide⟩)
    (by decide) (by decide) (by decide)

/-- C5 (amended): a second real run over the filesystem the first run
produced decides Skip for every candidate and copies zero files,
provided the candidates' source files exist as regular files outside
the destination subtree, each candidate lies strictly below its source
root, no two candidates' destination paths coincide or nest, and no
candidate's destination path already holds a directory (without these
provisos the counterexample applies - colliding candidates keep
overwriting each other's destination - and a pre-existing directory at
a destination path makes `shutil.copy2` copy into the directory on
every run instead of making it up to date). -/
theorem C5_second_run_all_skip (cfg : Config) (fs0 : Fs)
    (hdry : cfg.dryRun = false)
    (hio : ∀ f, cfg.ioFail f = false)
    (hexist : ∀ s ∈ cfg.sources, (fs0 s.path).isSome = true)
    (hsrc : ∀ c ∈ candidates cfg, ∃ stt, fs0 c.1 = some (Entry.file stt))
    (hnodir : ∀ c ∈ candidates cfg, isDirEntry (fs0 (dpath cfg c)) = false)
    (hnd : ∀ c ∈ candidates cfg, ¬ cfg.destination <+: c.1)
    (hrel : ∀ c ∈ candidates cfg, c.2.length < c.1.length)
    (hpair : (candidates cfg).Pairwise (fun a b =>
      ¬ dpath cfg a <+: dpath cfg b ∧ ¬ dpath cfg b <+: dpath cfg a)) :
    (backup cfg (backup cfg fs0).fs).outcome =
      .completed (candidates cfg).length 0 false := by
  have hf : cfg.sources.filter (fun t => (fs0 t.path).isNone) = [] := by
    rw [List.filter_eq_nil_iff]
    intro s hs
    have h2 := hexist s hs
    cases hfs : fs0 s.path with
    | none => rw [hfs] at h2; cases h2
    | some e => simp [hfs]
  have hinit : (if cfg.dryRun then fs0 else fs0.mkdirp cfg.destination) =
      fs0.mkdirp cfg.destination := by
    simp [hdry]
  rcases hrl1 : runLoop cfg (candidates cfg)
      ⟨fs0.mkdirp cfg.destination, 0, []⟩ with ⟨st1, err1⟩
  have hagree0 : ∀ c ∈ candidates cfg,
      (fs0.mkdirp cfg.destination) c.1 = fs0 c.1 ∧
      (fs0.mkdirp cfg.destination) (dpath cfg c) = fs0 (dpath cfg c) := by
    intro c hc
    constructor
    · obtain ⟨stt, hstt⟩ := hsrc c hc
      exact Fs.mkdirp_of_isSome _ _ _ (by rw [hstt]; rfl)
    · exact Fs.mkdirp_not_pre _ _ _ (dpath_not_pre_dest cfg c (hrel c hc))
  obtain ⟨m1, _, _, _, m5, m6⟩ := runLoop_real_spec cfg fs0 hdry hio
    (candidates cfg) ⟨fs0.mkdirp cfg.destination, 0, []⟩ hsrc hnd hagree0 hpair
  rw [hrl1] at m1 m5 m6
  dsimp only at m1 m5 m6
  subst m1
  have hout1 := backup_loop_none_eq cfg fs0 st1 hf (by rw [hinit]; exact hrl1)
  have hfs1 : (backup cfg fs0).fs = st1.fs := by rw [hout1]
  rw [hfs1]
  -- the second run: sources still exist
  have hexist2 : ∀ s ∈ cfg.sources, (st1.fs s.path).isSome = true := by
    intro s hs
    have h1 : ((fs0.mkdirp cfg.destination) s.path).isSome = true :=
      Fs.mkdirp_isSome _ _ _ (hexist s hs)
    have h2 := runLoop_isSome cfg (candidates cfg)
      ⟨fs0.mkdirp cfg.destination, 0, []⟩ s.path h1
    rw [hrl1] at h2
    exact h2
  have hf2 : cfg.sources.filter (fun t => (st1.fs t.path).isNone) = [] := by
    rw [List.filter_eq_nil_iff]
    intro s hs
    have h2 := hexist2 s hs
    cases hfs : st1.fs s.path with
    | none => rw [hfs] at h2; cases h2
    | some e => simp [hfs]
  -- every decision of the second run is Skip
  have hskipall : ∀ c ∈ candidates cfg,
      runDecision (st1.fs.mkdirp cfg.destination) cfg.destination c = .skip := by
    intro c hc
    obtain ⟨sttc, hsttc⟩ := hsrc c hc
    have hsrc1 : st1.fs c.1 = fs0 c.1 := m5 c hc
    have hcong : runDecision (st1.fs.mkdirp cfg.destination) cfg.destination c =
        runDecision st1.fs cfg.destination c :=
      runDecision_congr _ _ _ c
        (Fs.mkdirp_of_isSome _ _ _ (by rw [hsrc1, hsttc]; rfl))
        (Fs.mkdirp_not_pre _ _ _ (dpath_not_pre_dest cfg c (hrel c hc)))
    rw [hcong]
    cases hdec : runDecision fs0 cfg.destination c with
    | copy =>
      obtain ⟨stt2, hstt2, hdest2⟩ := (m6 c hc).1 hdec
      rw [copyTarget_of_not_dir fs0 c.1 (dpath cfg c) (hnodir c hc)] at hdest2
      have hsrc2 : st1.fs c.1 = some (.file stt2) := by rw [hsrc1, hstt2]
      exact runDecision_self_skip st1.fs cfg.destination c stt2 hsrc2 hdest2
    | skip =>
      have hdest2 : st1.fs (dpath cfg c) = fs0 (dpath cfg c) := (m6 c hc).2 hdec
      have hcong2 : runDecision st1.fs cfg.destination c =
          runDecision fs0 cfg.destination c :=
        runDecision_congr _ _ _ c hsrc1 hdest2
      rw [hcong2, hdec]
  have hrl2 : runLoop cfg (candidates cfg)
      ⟨st1.fs.mkdirp cfg.destination, 0, []⟩ =
      (⟨st1.fs.mkdirp cfg.destination, 0, []⟩, none) :=
    runLoop_skip_all cfg (candidates cfg) _ hskipall
  have hinit2 : (if cfg.dryRun then st1.fs else st1.fs.mkdirp cfg.destination) =
      st1.fs.mkdirp cfg.destination := by
    simp [hdry]
  have hout2 := backup_loop_none_eq cfg st1.fs
    ⟨st1.fs.mkdirp cfg.destination, 0, []⟩ hf2 (by rw [hinit2]; exact hrl2)
  rw [hout2]
  dsimp only
  rw [hdry]

theorem C5_witness :
    (backup scenarioCfg (backup scenarioCfg scenarioFs).fs).outcome =
      .completed 2 0 false :=
  C5_second_run_all_skip scenarioCfg scenarioFs rfl (fun _ => rfl) (by decide)
    (by
      intro c hc
      have hcand : candidates scenarioCfg =
          [(photosPath ++ ["img1.jpg"], photosPath),
           (docsPath ++ ["readme.txt"], docsPath)] := by decide
      rw [hcand] at hc
      rcases List.mem_cons.mp hc with rfl | hc
      · exact ⟨⟨2048, 100⟩, by decide⟩
      · rcases List.mem_singleton.mp hc with rfl
        exact ⟨⟨1024, 100⟩, by decide⟩)
    (by decide) (by decide) (by decide) (by decide)

end BackupToUsb
